import Mathlib

/-!
Verification development for the liana schema-to-code pipeline.

The development shallowly embeds three layers of the repository:

* `Liana` — the IR data model from `crates/concord-core/src/lib.rs`
  (the crate is imported as `liana_core`).
* `OpenapiV3` — the slice of the external `openapiv3` document model that
  the converter reads (only the fields the converter actually touches are
  modelled; unread fields of the Rust structs are omitted).
* `Parser` — the schema converter from
  `crates/liana-codegen/src/parser/openapi.rs`.
* `RustGen` — the code generator from
  `crates/liana-codegen/src/generator/rust.rs`.  Every `writeln!` of the
  Rust code appends exactly one line to the output string, so the
  generator is embedded as functions producing the `List String` of
  emitted lines, in emission order.

Machine integers do not occur on any modelled path; `u32` source-location
fields become `Nat`.  Rust `char` classification/case functions are
embedded as Lean's `Char.isUpper`/`Char.toLower`/… (the ASCII fragment,
on which the two agree).  All converter functions return `Result` in the
source but every constructor site returns `Ok` (the source itself marks
`convert_schema` with `#[allow(clippy::unnecessary_wraps)]`), so they are
embedded as total functions.
-/

set_option maxHeartbeats 1000000

namespace Liana

/-- Embeds `SourceLocation` (`file`, optional `line`/`column`). -/
structure SourceLocation where
  file : String
  line : Option Nat
  column : Option Nat

/-- Embeds `Value`: a dynamically shaped literal used for defaults and
constants.  `Object` is an insertion-ordered `IndexMap`, embedded as an
association list. -/
inductive Value where
  | null
  | bool (b : Bool)
  | number (n : Float)
  | string (s : String)
  | list (l : List Value)
  | object (o : List (String × Value))

/-- Embeds `Metadata` (docs, source, confidence, extra). -/
structure Metadata where
  docs : Option String
  source : Option SourceLocation
  confidence : Option Float
  extra : List (String × Value)

/-- Embeds `Metadata::default()`. -/
def Metadata.default : Metadata :=
  { docs := none, source := none, confidence := none, extra := [] }

mutual

/-- Embeds `Type` from the IR.  (Named `Ty` because `Type` is reserved in
Lean.)  Fields in source order: `kind`, `name`, `params`, `args`,
`annotations`, `metadata`. -/
inductive Ty where
  | mk (kind : TypeKind) (name : Option String) (params : List TypeParam)
      (args : List Ty) (annotations : List Annotation) (metadata : Metadata)

/-- Embeds `TypeKind`: the closed structural variant set. -/
inductive TypeKind where
  | ref (name : String)
  | struct (fields : List Field)
  | enum (variants : List Variant)
  | function (params : List Param) (ret : Ty)
  | union (members : List Ty)
  | intersection (members : List Ty)

/-- Embeds `TypeParam` (name, bounds, optional default type). -/
inductive TypeParam where
  | mk (name : String) (bounds : List Annotation) (default : Option Ty)

/-- Embeds `Annotation`: an open `(kind, value)` pair. -/
inductive Annotation where
  | mk (kind : String) (value : Option AnnotationValue)

/-- Embeds `AnnotationValue` (type/string/number/bool/list). -/
inductive AnnotationValue where
  | type (t : Ty)
  | string (s : String)
  | number (n : Float)
  | bool (b : Bool)
  | list (l : List AnnotationValue)

/-- Embeds `Field` (optional name, type, annotations). -/
inductive Field where
  | mk (name : Option String) (typ : Ty) (annotations : List Annotation)

/-- Embeds `Variant` (name, fields, annotations). -/
inductive Variant where
  | mk (name : String) (fields : List Field) (annotations : List Annotation)

/-- Embeds `Param` (optional name, type, optional default, annotations). -/
inductive Param where
  | mk (name : Option String) (typ : Ty) (default : Option Value)
      (annotations : List Annotation)

end

/-- Projects the `kind` field of `Type`. -/
def Ty.kind : Ty → TypeKind
  | .mk k _ _ _ _ _ => k

/-- Projects the `name` field of `Type`. -/
def Ty.name : Ty → Option String
  | .mk _ n _ _ _ _ => n

/-- Projects the `params` field of `Type`. -/
def Ty.params : Ty → List TypeParam
  | .mk _ _ p _ _ _ => p

/-- Projects the `args` field of `Type`. -/
def Ty.args : Ty → List Ty
  | .mk _ _ _ a _ _ => a

/-- Projects the `annotations` field of `Type`. -/
def Ty.annotations : Ty → List Annotation
  | .mk _ _ _ _ a _ => a

/-- Projects the `metadata` field of `Type`. -/
def Ty.metadata : Ty → Metadata
  | .mk _ _ _ _ _ m => m

/-- Projects the `name` field of `TypeParam`. -/
def TypeParam.name : TypeParam → String
  | .mk n _ _ => n

/-- Projects the `kind` field of `Annotation`. -/
def Annotation.kind : Annotation → String
  | .mk k _ => k

/-- Projects the `value` field of `Annotation`. -/
def Annotation.value : Annotation → Option AnnotationValue
  | .mk _ v => v

/-- Projects the `name` field of `Field`. -/
def Field.name : Field → Option String
  | .mk n _ _ => n

/-- Projects the `typ` field of `Field`. -/
def Field.typ : Field → Ty
  | .mk _ t _ => t

/-- Projects the `annotations` field of `Field`. -/
def Field.annotations : Field → List Annotation
  | .mk _ _ a => a

/-- Projects the `name` field of `Variant`. -/
def Variant.name : Variant → String
  | .mk n _ _ => n

/-- Projects the `fields` field of `Variant`. -/
def Variant.fields : Variant → List Field
  | .mk _ f _ => f

/-- Projects the `annotations` field of `Variant`. -/
def Variant.annotations : Variant → List Annotation
  | .mk _ _ a => a

/-- Projects the `name` field of `Param`. -/
def Param.name : Param → Option String
  | .mk n _ _ _ => n

/-- Projects the `typ` field of `Param`. -/
def Param.typ : Param → Ty
  | .mk _ t _ _ => t

/-- Embeds `Type::reference`: an anonymous nominal reference. -/
def Ty.reference (name : String) : Ty :=
  .mk (.ref name) none [] [] [] Metadata.default

/-- Embeds `Type::generic`: a generic instantiation `base<args>`. -/
def Ty.generic (base : String) (args : List Ty) : Ty :=
  .mk (.ref base) none [] args [] Metadata.default

/-- Embeds `Annotation::flag`. -/
def Annotation.flag (kind : String) : Annotation :=
  .mk kind none

/-- Embeds `Annotation::with_type`. -/
def Annotation.with_type (kind : String) (typ : Ty) : Annotation :=
  .mk kind (some (.type typ))

/-- Embeds `Annotation::with_string`. -/
def Annotation.with_string (kind value : String) : Annotation :=
  .mk kind (some (.string value))

/-- Embeds `Annotation::with_number`. -/
def Annotation.with_number (kind : String) (value : Float) : Annotation :=
  .mk kind (some (.number value))

/-- Embeds the IR `Function` declaration. -/
structure Function where
  name : String
  params : List TypeParam
  args : List Param
  ret : Ty
  annotations : List Annotation
  metadata : Metadata

/-- Embeds `Item` (a module item: type, function, or const). -/
inductive Item where
  | type (t : Ty)
  | function (f : Function)
  | const (name : String) (typ : Ty) (value : Value)

/-- Embeds `Module` (name, ordered items, submodules, annotations,
metadata).  Recursive through `submodules`. -/
inductive Module where
  | mk (name : String) (items : List Item) (submodules : List Module)
      (annotations : List Annotation) (metadata : Metadata)

/-- Projects the `name` field of `Module`. -/
def Module.name : Module → String
  | .mk n _ _ _ _ => n

/-- Projects the `items` field of `Module`. -/
def Module.items : Module → List Item
  | .mk _ i _ _ _ => i

/-- Projects the `metadata` field of `Module`. -/
def Module.metadata : Module → Metadata
  | .mk _ _ _ _ m => m

end Liana

namespace OpenapiV3

/-- Embeds `openapiv3::ReferenceOr<T>`: either a `$ref` string or an
inline item.  `Box` indirections of the Rust crate are erased. -/
inductive ReferenceOr (α : Type) where
  | reference (reference : String)
  | item (item : α)

/-- Embeds `openapiv3::StringFormat` (the known string formats). -/
inductive StringFormat where
  | date
  | dateTime
  | password
  | byte
  | binary

/-- Models `format!("{f:?}").to_lowercase()` applied to a known
`StringFormat`: the lowercased derived `Debug` name. -/
def StringFormat.debugLower : StringFormat → String
  | .date => "date"
  | .dateTime => "datetime"
  | .password => "password"
  | .byte => "byte"
  | .binary => "binary"

/-- Embeds `openapiv3::VariantOrUnknownOrEmpty<T>`. -/
inductive VariantOrUnknownOrEmpty (α : Type) where
  | item (a : α)
  | unknown (s : String)
  | empty

/-- Embeds the slice of `openapiv3::SchemaData` the converter reads
(only `description`). -/
structure SchemaData where
  description : Option String

mutual

/-- Embeds `openapiv3::Schema` (`schema_data` + `schema_kind`). -/
inductive Schema where
  | mk (schema_data : SchemaData) (schema_kind : SchemaKind)

/-- Embeds `openapiv3::SchemaKind`. -/
inductive SchemaKind where
  | type (t : OaType)
  | oneOf (one_of : List (ReferenceOr Schema))
  | allOf (all_of : List (ReferenceOr Schema))
  | anyOf (any_of : List (ReferenceOr Schema))
  | not (s : ReferenceOr Schema)
  | any (a : AnySchema)

/-- Embeds `openapiv3::Type` (named `OaType` as in the source's
`Type as OaType` import).  The numeric/boolean payloads are never read
by the converter (matched with `_`) and are omitted. -/
inductive OaType where
  | string (s : StringType)
  | number
  | integer
  | boolean
  | object (o : ObjectType)
  | array (a : ArrayType)

/-- Embeds the slice of `openapiv3::StringType` the converter reads:
`format` and `enumeration` (a list of nullable literals). -/
inductive StringType where
  | mk (format : VariantOrUnknownOrEmpty StringFormat)
      (enumeration : List (Option String))

/-- Embeds the slice of `openapiv3::ObjectType` the converter reads:
`properties` (an insertion-ordered `IndexMap`, embedded as an
association list) and `required`. -/
inductive ObjectType where
  | mk (properties : List (String × ReferenceOr Schema))
      (required : List String)

/-- Embeds the slice of `openapiv3::ArrayType` the converter reads:
`items`. -/
inductive ArrayType where
  | mk (items : Option (ReferenceOr Schema))

/-- Embeds the slice of `openapiv3::AnySchema` the converter reads:
`properties` and `required`. -/
inductive AnySchema where
  | mk (properties : List (String × ReferenceOr Schema))
      (required : List String)

end

/-- Projects the `schema_data` field of `Schema`. -/
def Schema.schema_data : Schema → SchemaData
  | .mk d _ => d

/-- Projects the `schema_kind` field of `Schema`. -/
def Schema.schema_kind : Schema → SchemaKind
  | .mk _ k => k

/-- Projects the `format` field of `StringType`. -/
def StringType.format : StringType → VariantOrUnknownOrEmpty StringFormat
  | .mk f _ => f

/-- Projects the `enumeration` field of `StringType`. -/
def StringType.enumeration : StringType → List (Option String)
  | .mk _ e => e

/-- Projects the `properties` field of `ObjectType`. -/
def ObjectType.properties : ObjectType → List (String × ReferenceOr Schema)
  | .mk p _ => p

/-- Projects the `required` field of `ObjectType`. -/
def ObjectType.required : ObjectType → List String
  | .mk _ r => r

/-- Projects the `items` field of `ArrayType`. -/
def ArrayType.items : ArrayType → Option (ReferenceOr Schema)
  | .mk i => i

/-- Projects the `properties` field of `AnySchema`. -/
def AnySchema.properties : AnySchema → List (String × ReferenceOr Schema)
  | .mk p _ => p

/-- Projects the `required` field of `AnySchema`. -/
def AnySchema.required : AnySchema → List String
  | .mk _ r => r

/-- Embeds the slice of `openapiv3::MediaType` the converter reads:
`schema`. -/
structure MediaType where
  schema : Option (ReferenceOr Schema)

/-- Embeds `openapiv3::Content` (`IndexMap<String, MediaType>`),
as an insertion-ordered association list; `get` is `List.lookup`. -/
abbrev Content := List (String × MediaType)

/-- Embeds `openapiv3::ParameterSchemaOrContent`. -/
inductive ParameterSchemaOrContent where
  | schema (s : ReferenceOr Schema)
  | content (c : Content)

/-- Embeds the slice of `openapiv3::ParameterData` the converter reads:
`name`, `required`, `format`. -/
structure ParameterData where
  name : String
  required : Bool
  format : ParameterSchemaOrContent

/-- Embeds `openapiv3::Parameter` (query/header/path/cookie); the
style-specific payloads beyond `parameter_data` are never read. -/
inductive Parameter where
  | query (parameter_data : ParameterData)
  | header (parameter_data : ParameterData)
  | path (parameter_data : ParameterData)
  | cookie (parameter_data : ParameterData)

/-- Projects `parameter_data` out of any of the four `Parameter`
variants, as the source's match over the four cases does. -/
def Parameter.parameter_data : Parameter → ParameterData
  | .query d => d
  | .header d => d
  | .path d => d
  | .cookie d => d

/-- Embeds the slice of `openapiv3::RequestBody` the converter reads:
`content`. -/
structure RequestBody where
  content : Content

/-- Embeds the slice of `openapiv3::Response` the converter reads:
`content`. -/
structure Response where
  content : Content

/-- Embeds `openapiv3::StatusCode`. -/
inductive StatusCode where
  | code (n : Nat)
  | range (n : Nat)
deriving BEq, DecidableEq

/-- Embeds the slice of `openapiv3::Responses` the converter reads:
`default` and the status-keyed `responses` map (insertion-ordered). -/
structure Responses where
  default : Option (ReferenceOr Response)
  responses : List (StatusCode × ReferenceOr Response)

/-- Embeds the slice of `openapiv3::Operation` the converter reads. -/
structure Operation where
  operation_id : Option String
  parameters : List (ReferenceOr Parameter)
  request_body : Option (ReferenceOr RequestBody)
  responses : Responses
  description : Option String
  summary : Option String

/-- Embeds the slice of `openapiv3::PathItem` the converter reads: the
eight HTTP method slots. -/
structure PathItem where
  get : Option Operation
  post : Option Operation
  put : Option Operation
  delete : Option Operation
  patch : Option Operation
  head : Option Operation
  options : Option Operation
  trace : Option Operation

/-- Embeds `openapiv3::Paths` (insertion-ordered map of path strings to
path items). -/
structure Paths where
  paths : List (String × ReferenceOr PathItem)

/-- Embeds the slice of `openapiv3::Components` the converter reads:
`schemas` (insertion-ordered). -/
structure Components where
  schemas : List (String × ReferenceOr Schema)

/-- Embeds the slice of `openapiv3::Info` the converter reads: `title`
and `description`. -/
structure Info where
  title : String
  description : Option String

/-- Embeds the slice of the `openapiv3::OpenAPI` document the converter
reads. -/
structure OpenAPI where
  info : Info
  paths : Paths
  components : Option Components

end OpenapiV3

namespace Parser

open Liana OpenapiV3

/-- Core loop of `to_pascal_case` (both copies in `openapi.rs` and
`rust.rs` have the same body): walks the characters with the
`capitalize_next` flag, dropping `_`/`-`/space separators and
capitalizing the character that follows one. -/
def pascalCore : List Char → Bool → List Char
  | [], _ => []
  | c :: cs, capitalizeNext =>
    if c = '_' ∨ c = '-' ∨ c = ' ' then pascalCore cs true
    else if capitalizeNext then c.toUpper :: pascalCore cs false
    else c :: pascalCore cs false

/-- Embeds `to_pascal_case` from `parser/openapi.rs`. -/
def to_pascal_case (s : String) : String :=
  ⟨pascalCore s.data true⟩

/-- Embeds `to_module_name` from `parser/openapi.rs`: lowercase, replace
every non-alphanumeric character with `_`, trim `_` from both ends. -/
def to_module_name (title : String) : String :=
  let replaced := (title.data.map Char.toLower).map
    (fun c => if c.isAlphanum then c else '_')
  ⟨(((replaced.dropWhile (fun c => c = '_')).reverse.dropWhile
      (fun c => c = '_')).reverse)⟩

/-- Models `reference.strip_prefix("#/components/schemas/").unwrap_or(reference)`
on the character level: the prefix is 21 characters long. -/
def schema_ref_target (reference : String) : String :=
  if reference.data.take 21 = "#/components/schemas/".data then
    ⟨reference.data.drop 21⟩
  else reference

mutual

/-- Embeds `Converter::convert_schema`.  The Rust function always
returns `Ok` (it carries `#[allow(clippy::unnecessary_wraps)]`), so the
embedding is total.  The `filter_map(|r| ....ok())` calls on composition
branches therefore keep every branch, and the `unwrap_or_else` fallbacks
on property resolution never fire. -/
def convert_schema (schema : Schema) (name : Option String) : Ty :=
  match schema with
  | .mk schema_data schema_kind =>
    let ka : TypeKind × List Ty :=
      match schema_kind with
      | .type typ => convert_schema_type typ
      | .oneOf one_of =>
        (TypeKind.union (one_of.attach.map (fun r => resolve_schema_ref r.val)), [])
      | .allOf all_of =>
        (TypeKind.intersection (all_of.attach.map (fun r => resolve_schema_ref r.val)), [])
      | .anyOf any_of =>
        (TypeKind.union (any_of.attach.map (fun r => resolve_schema_ref r.val)), [])
      | .not _ =>
        (TypeKind.ref "Any", [])
      | .any (.mk properties required) =>
        if properties.isEmpty then (TypeKind.ref "Any", [])
        else
          (TypeKind.struct (properties.attach.map (fun pr =>
            let typ := resolve_boxed_schema_ref pr.val.2
            let typ := if required.contains pr.val.1 then typ
              else Ty.generic "Option" [typ]
            Liana.Field.mk (some pr.val.1) typ [])), [])
    let annotations : List Annotation :=
      match schema_kind with
      | .type (.string (.mk format _)) =>
        match format with
        | .item f => [ Annotation.with_string "format" f.debugLower]
        | .unknown f => [ Annotation.with_string "format" f]
        | .empty => []
      | _ => []
    Ty.mk ka.1 name [] ka.2 annotations
      (Metadata.mk schema_data.description none none [])
termination_by sizeOf schema
decreasing_by
  all_goals simp_wf
  all_goals try omega
  all_goals
    first
    | (have hm := List.sizeOf_lt_of_mem r.2
       obtain ⟨rv, hr⟩ := r
       simp at hm ⊢
       omega)
    | (have hm := List.sizeOf_lt_of_mem pr.2
       obtain ⟨⟨pn, pv⟩, hp⟩ := pr
       simp at hm ⊢
       omega)

/-- Embeds `Converter::convert_schema_type`. -/
def convert_schema_type (typ : OaType) : TypeKind × List Ty :=
  match typ with
  | .string (.mk _ enumeration) =>
    if enumeration.isEmpty then (TypeKind.ref "String", [])
    else
      (TypeKind.enum ((enumeration.filterMap id).map (fun v =>
        Variant.mk (to_pascal_case v) []
          [ Annotation.with_string "serde_rename" v])), [])
  | .number => (TypeKind.ref "f64", [])
  | .integer => (TypeKind.ref "i64", [])
  | .boolean => (TypeKind.ref "bool", [])
  | .object (.mk properties required) =>
    (TypeKind.struct (properties.attach.map (fun pr =>
      let typ := resolve_boxed_schema_ref pr.val.2
      let typ := if required.contains pr.val.1 then typ
        else Ty.generic "Option" [typ]
      Liana.Field.mk (some pr.val.1) typ [])), [])
  | .array (.mk items) =>
    let item_type :=
      match items with
      | some r => resolve_boxed_schema_ref r
      | none => Ty.reference "Any"
    (TypeKind.ref "Vec", [item_type])
termination_by sizeOf typ
decreasing_by
  all_goals simp_wf
  all_goals try omega
  all_goals
    (have hm := List.sizeOf_lt_of_mem pr.2
     obtain ⟨⟨pn, pv⟩, hp⟩ := pr
     simp at hm ⊢
     omega)

/-- Embeds `Converter::resolve_schema_ref`: a `$ref` becomes a nominal
reference named by the text after the component-schema prefix (or the
whole reference text when the prefix does not match); an inline schema
is converted anonymously. -/
def resolve_schema_ref (schema_ref : ReferenceOr Schema) : Ty :=
  match schema_ref with
  | .reference reference => Ty.reference (schema_ref_target reference)
  | .item schema => convert_schema schema none
termination_by sizeOf schema_ref
decreasing_by
  all_goals simp_wf

/-- Embeds `Converter::resolve_boxed_schema_ref` (identical to
`resolve_schema_ref` with the `Box` erased). -/
def resolve_boxed_schema_ref (schema_ref : ReferenceOr Schema) : Ty :=
  match schema_ref with
  | .reference reference => Ty.reference (schema_ref_target reference)
  | .item schema => convert_schema schema none
termination_by sizeOf schema_ref
decreasing_by
  all_goals simp_wf

end

end Parser

namespace Parser

open Liana OpenapiV3

/-- Embeds the response-resolution chain of `Converter::convert_operation`
(`openapi.rs` lines 359–374): the default response if present, else the
status-200 response, considering only `application/json` content; the
`.ok()` on the infallible `resolve_schema_ref` is an `Option.map`; the
fallback is `Ref{"Unit"}`. -/
def response_return_type (op : Operation) : Ty :=
  ((((op.responses.default).orElse
      (fun _ => op.responses.responses.lookup (StatusCode.code 200))).bind
    (fun r =>
      match r with
      | .item resp => resp.content.lookup "application/json"
      | .reference _ => none)).bind
    (fun content => content.schema)).map
    (fun s => resolve_schema_ref s)
  |>.getD (Ty.reference "Unit")

/-- Embeds `Converter::convert_operation`.  The fallback name replaces
`/` with `_` and strips `{`/`}` from the path; parameters accumulate in
source order; a JSON request body appends one trailing `body` parameter;
the return type is always `Result<…, ApiError>`. -/
def convert_operation (path : String) (method : String) (op : Operation) :
    Liana.Function :=
  let name :=
    match op.operation_id with
    | some id => id
    | none =>
      method ++ "_" ++
        ⟨(path.data.map (fun c => if c = '/' then '_' else c)).filter
          (fun c => c ≠ '\x7b' ∧ c ≠ '\x7d')⟩
  let args : List Liana.Param :=
    op.parameters.foldl (fun args param_ref =>
      match param_ref with
      | .item param =>
        let param_data := param.parameter_data
        let typ :=
          match param_data.format with
          | .schema s => resolve_schema_ref s
          | .content _ => Ty.reference "String"
        let typ := if param_data.required then typ
          else Ty.generic "Option" [typ]
        args ++ [Liana.Param.mk (some param_data.name) typ none []]
      | .reference _ => args) []
  let args : List Liana.Param :=
    match op.request_body with
    | some (.item body) =>
      match body.content.lookup "application/json" with
      | some content =>
        match content.schema with
        | some schema_ref =>
          args ++ [Liana.Param.mk (some "body") (resolve_schema_ref schema_ref) none []]
        | none => args
      | none => args
    | _ => args
  let ret := Ty.generic "Result" [response_return_type op, Ty.reference "ApiError"]
  { name := name
    params := []
    args := args
    ret := ret
    annotations :=
      [ Annotation.with_string "http_method" method.toUpper,
       Annotation.with_string "http_path" path]
    metadata :=
      Metadata.mk ((op.description).orElse (fun _ => op.summary)) none none [] }

/-- Embeds the fixed eight-entry `operations` array of
`Converter::convert_path_item`. -/
def operations_table (item : PathItem) : List (String × Option Operation) :=
  [("get", item.get), ("post", item.post), ("put", item.put),
   ("delete", item.delete), ("patch", item.patch), ("head", item.head),
   ("options", item.options), ("trace", item.trace)]

/-- Embeds `Converter::convert_path_item`.  The Rust method pushes each
converted operation onto `self.items`; the embedding returns the list of
items it pushes, in push order. -/
def convert_path_item (path : String) (item : PathItem) : List Item :=
  (operations_table item).foldl (fun items mo =>
    match mo.2 with
    | some operation =>
      items ++ [Item.function (convert_operation path mo.1 operation)]
    | none => items) []

/-- Embeds `Converter::convert`: one pass over `components.schemas`
pushing one named `Item::Type` per inline schema definition, then one
pass over `paths` pushing the functions of each inline path item, then
the module is assembled once. -/
def convert (spec : OpenAPI) : Liana.Module :=
  let items : List Item :=
    match spec.components with
    | some components =>
      components.schemas.foldl (fun items nsr =>
        match nsr.2 with
        | .item schema => items ++ [Item.type (convert_schema schema (some nsr.1))]
        | .reference _ => items) []
    | none => []
  let items :=
    spec.paths.paths.foldl (fun items ppr =>
      match ppr.2 with
      | .item path_item => items ++ convert_path_item ppr.1 path_item
      | .reference _ => items) items
  let title := spec.info.title
  Liana.Module.mk (to_module_name title) items [] []
    (Metadata.mk spec.info.description none none [])

end Parser

namespace RustGen

open Liana

/-- Core loop of `to_snake_case` from `generator/rust.rs`: walks the
characters with the `prev_lower` flag, lowercasing uppercase letters
(with a `_` inserted after a lowercase letter), mapping `-`/space to
`_`, and passing other characters through. -/
def snakeCore : List Char → Bool → List Char
  | [], _ => []
  | c :: cs, prevLower =>
    if c.isUpper then
      (if prevLower then ['_', c.toLower] else [c.toLower]) ++ snakeCore cs false
    else if c = '-' ∨ c = ' ' then
      '_' :: snakeCore cs false
    else
      c :: snakeCore cs c.isLower

/-- Embeds the fixed Rust reserved-word table of `to_snake_case`. -/
def rust_keywords : List String :=
  ["type", "self", "super", "crate", "mod", "fn", "let", "if", "else",
   "match", "loop", "while", "for", "in", "ref", "mut", "const", "static",
   "async", "await", "move", "return", "break", "continue"]

/-- Embeds `to_snake_case` from `generator/rust.rs`: the character walk
followed by the keyword-escaping match (which is a membership test in
the fixed table, prepending `r#` on a hit). -/
def to_snake_case (s : String) : String :=
  let result : String := ⟨snakeCore s.data false⟩
  if rust_keywords.contains result then "r#" ++ result else result

/-- Embeds `to_pascal_case` from `generator/rust.rs` (same body as the
copy in `parser/openapi.rs`). -/
def to_pascal_case (s : String) : String :=
  ⟨Parser.pascalCore s.data true⟩

/-- Embeds `type_to_rust`: renders a `Type` in a type position.  The
primitive table maps the fixed names; `Union`/`Intersection` render as
their first member (or `serde_json::Value` when empty). -/
def type_to_rust (typ : Ty) : String :=
  match typ with
  | .mk kind name _ args _ _ =>
    match kind with
    | .ref refName =>
      let base :=
        if refName = "String" then "String"
        else if refName = "i64" then "i64"
        else if refName = "f64" then "f64"
        else if refName = "bool" then "bool"
        else if refName = "Any" then "serde_json::Value"
        else if refName = "Unit" then "()"
        else if refName = "Never" then "!"
        else refName
      if args.isEmpty then base
      else
        base ++ "<" ++
          String.intercalate ", " (args.attach.map (fun t => type_to_rust t.val))
          ++ ">"
    | .struct _ => name.getD "AnonymousStruct"
    | .enum _ => name.getD "String"
    | .function fparams ret =>
      "fn(" ++
        String.intercalate ", "
          (fparams.attach.map (fun p => type_to_rust p.val.typ)) ++
        ") -> " ++ type_to_rust ret
    | .union members =>
      match members with
      | [] => "serde_json::Value"
      | m :: _ => type_to_rust m
    | .intersection members =>
      match members with
      | [] => "serde_json::Value"
      | m :: _ => type_to_rust m
termination_by sizeOf typ
decreasing_by
  all_goals simp_wf
  all_goals try omega
  all_goals
    first
    | (have hm := List.sizeOf_lt_of_mem t.2
       obtain ⟨tv, ht⟩ := t
       simp at hm ⊢
       omega)
    | (have hm := List.sizeOf_lt_of_mem p.2
       obtain ⟨⟨pn, pt, pd, pa⟩, hp⟩ := p
       simp [Liana.Param.typ] at hm ⊢
       omega)

/-- Models the derived `Debug` formatting of an IR `Value`, used only
for `Item::Const` emission (`format!("{value:?}")`); float formatting is
approximated by Lean's `toString`. -/
def value_debug (v : Value) : String :=
  match v with
  | .null => "Null"
  | .bool b => "Bool(" ++ (if b then "true" else "false") ++ ")"
  | .number n => "Number(" ++ toString n ++ ")"
  | .string s => "String(\"" ++ s ++ "\")"
  | .list l =>
    "List([" ++
      String.intercalate ", " (l.attach.map (fun x => value_debug x.val)) ++ "])"
  | .object o =>
    "Object(\x7b" ++
      String.intercalate ", "
        (o.attach.map (fun kv => "\"" ++ kv.val.1 ++ "\": " ++ value_debug kv.val.2))
      ++ "\x7d)"
termination_by sizeOf v
decreasing_by
  all_goals simp_wf
  all_goals
    first
    | (have hm := List.sizeOf_lt_of_mem x.2
       obtain ⟨xv, hx⟩ := x
       simp at hm ⊢
       omega)
    | (have hm := List.sizeOf_lt_of_mem kv.2
       obtain ⟨⟨kn, kval⟩, hk⟩ := kv
       simp at hm ⊢
       omega)

/-- The recurring derive attribute line of the generator. -/
def derive_line : String :=
  "#[derive(Debug, Clone, PartialEq, Serialize, Deserialize)]"

/-- Models `docs.lines()` prefixed into `///` doc-comment lines. -/
def doc_lines (docs : Option String) : List String :=
  match docs with
  | some d => (d.splitOn "\n").map (fun line => "/// " ++ line)
  | none => []

/-- Renders the `<T, U>` generics clause from a `TypeParam` list (shared
shape of `generate_struct`/`generate_enum`/`generate_function`). -/
def generics_str (params : List TypeParam) : String :=
  if params.isEmpty then ""
  else "<" ++ String.intercalate ", " (params.map TypeParam.name) ++ ">"

/-- Embeds the per-field emission of the named-struct branch of
`generate_struct` (`rust.rs` lines 156–167): the snake-cased field line,
preceded by a serde rename attribute exactly when snake-casing changed
the name. -/
def named_field_lines (field : Liana.Field) : List String :=
  let field_name := to_snake_case (field.name.getD "_")
  let typ_str := type_to_rust field.typ
  let original := field.name.getD "_"
  (if field_name ≠ original then
    ["    #[serde(rename = \"" ++ original ++ "\")]"]
   else []) ++
  ["    pub " ++ field_name ++ ": " ++ typ_str ++ ","]

/-- Embeds `generate_struct` as the list of lines it writes: unit,
tuple, or named shape chosen from the field-naming pattern. -/
def generate_struct (name : String) (params : List TypeParam)
    (fields : List Liana.Field) : List String :=
  let generics := generics_str params
  [derive_line] ++
  (if fields.isEmpty then
    ["pub struct " ++ name ++ generics ++ ";"]
   else if fields.all (fun f => f.name.isNone) then
    ["pub struct " ++ name ++ generics ++ "("] ++
    fields.foldl (fun acc field =>
      acc ++ ["    pub " ++ type_to_rust field.typ ++ ","]) [] ++
    [");"]
   else
    ["pub struct " ++ name ++ generics ++ " \x7b"] ++
    fields.foldl (fun acc field => acc ++ named_field_lines field) [] ++
    ["\x7d"]) ++
  [""]

/-- Embeds the per-variant emission of `generate_enum`: Pascal-cased
variant name; a `serde_rename` annotation differing from the derived
name re-attaches the original literal; unit/tuple/struct shape follows
the field-naming pattern. -/
def variant_lines (variant : Variant) : List String :=
  let variant_name := to_pascal_case variant.name
  let rename := variant.annotations.findSome? (fun a =>
    if a.kind = "serde_rename" then
      match a.value with
      | some (.string s) => some s
      | _ => none
    else none)
  if variant.fields.isEmpty then
    (match rename with
     | some original =>
       if original ≠ variant_name then
         ["    #[serde(rename = \"" ++ original ++ "\")]"]
       else []
     | none => []) ++
    ["    " ++ variant_name ++ ","]
  else if variant.fields.all (fun f => f.name.isNone) then
    ["    " ++ variant_name ++ "(" ++
      String.intercalate ", " (variant.fields.map (fun f => type_to_rust f.typ))
      ++ "),"]
  else
    ["    " ++ variant_name ++ " \x7b"] ++
    variant.fields.foldl (fun acc field =>
      acc ++ ["        " ++ to_snake_case (field.name.getD "_") ++ ": " ++
        type_to_rust field.typ ++ ","]) [] ++
    ["    \x7d,"]

/-- Embeds `generate_enum` as the list of lines it writes. -/
def generate_enum (name : String) (params : List TypeParam)
    (variants : List Variant) : List String :=
  [derive_line, "pub enum " ++ name ++ generics_str params ++ " \x7b"] ++
  variants.foldl (fun acc v => acc ++ variant_lines v) [] ++
  ["\x7d", ""]

/-- Embeds `generate_type` as the list of lines it writes: nothing for
an anonymous type, else doc lines followed by the declaration shape
selected by `TypeKind`. -/
def generate_type (typ : Ty) : List String :=
  match typ.name with
  | none => []
  | some name =>
    doc_lines typ.metadata.docs ++
    (match typ.kind with
     | .struct fields => generate_struct name typ.params fields
     | .enum variants => generate_enum name typ.params variants
     | .union members =>
       [derive_line, "#[serde(untagged)]", "pub enum " ++ name ++ " \x7b"] ++
       (members.enum.foldl (fun acc im =>
         acc ++
           ["    " ++ (im.2.name.getD ("Variant" ++ toString im.1)) ++ "(" ++
             type_to_rust im.2 ++ "),"]) []) ++
       ["\x7d", ""]
     | .ref target =>
       let args_str :=
         if typ.args.isEmpty then ""
         else "<" ++ String.intercalate ", " (typ.args.map type_to_rust) ++ ">"
       ["pub type " ++ name ++ " = " ++ target ++ args_str ++ ";", ""]
     | .function fparams ret =>
       ["pub type " ++ name ++ " = fn(" ++
         String.intercalate ", " (fparams.map (fun p => type_to_rust p.typ)) ++
         ") -> " ++ type_to_rust ret ++ ";", ""]
     | .intersection _ =>
       ["// TODO: Intersection type " ++ name, ""])

/-- Embeds the annotation extraction of `generate_function`
(`find` by kind, then the string value if any). -/
def ann_find_string (annotations : List Annotation) (key : String) :
    Option String :=
  (annotations.find? (fun a => a.kind = key)).bind (fun a =>
    match a.value with
    | some (.string s) => some s
    | _ => none)

/-- Embeds `generate_function` as the list of lines it writes: doc
lines, an `/// HTTP: method path` comment when both annotations are
present, then the async stub with a `todo!()` body. -/
def generate_function (func : Liana.Function) : List String :=
  doc_lines func.metadata.docs ++
  (match ann_find_string func.annotations "http_method",
         ann_find_string func.annotations "http_path" with
   | some method, some path => ["/// HTTP: " ++ method ++ " " ++ path]
   | _, _ => []) ++
  (let func_name := to_snake_case func.name
   let generics := generics_str func.params
   let args := String.intercalate ", " (func.args.map (fun p =>
     to_snake_case (p.name.getD "_") ++ ": " ++ type_to_rust p.typ))
   ["pub async fn " ++ func_name ++ generics ++ "(" ++ args ++ ") -> " ++
     type_to_rust func.ret ++ " \x7b",
    "    todo!()",
    "\x7d",
    ""])

/-- Embeds the per-item dispatch of `generate`'s item loop. -/
def item_lines (item : Item) : List String :=
  match item with
  | .type typ => generate_type typ
  | .function func => generate_function func
  | .const name typ value =>
    ["pub const " ++ name ++ ": " ++ type_to_rust typ ++ " = " ++
      value_debug value ++ ";", ""]

/-- Embeds the fixed part `generate` writes before the item loop: the
optional module doc comment, the serde import, and the `ApiError`
preamble. -/
def module_header_lines (module : Liana.Module) : List String :=
  (match module.metadata.docs with
   | some docs => ["//! " ++ docs, ""]
   | none => []) ++
  ["use serde::\x7bDeserialize, Serialize\x7d;",
   "",
   "/// API error type.",
   derive_line,
   "pub struct ApiError \x7b",
   "    pub message: String,",
   "    pub code: Option<String>,",
   "\x7d",
   ""]

/-- Embeds `generate` as the list of lines of the produced file
(`mod.rs`): header first, then the item loop appending each item's
lines.  Directory creation and the file write are IO boundary, outside
the embedding. -/
def generate_lines (module : Liana.Module) : List String :=
  module.items.foldl (fun code item => code ++ item_lines item)
    (module_header_lines module)

end RustGen

namespace Parser

open Liana OpenapiV3

/-- The items the first loop of `Converter::convert` pushes: one named
`Item::Type` per inline entry of `components.schemas`, in map order. -/
def schema_items (spec : OpenAPI) : List Item :=
  match spec.components with
  | some components =>
    components.schemas.flatMap (fun nsr =>
      match nsr.2 with
      | .item schema => [Item.type (convert_schema schema (some nsr.1))]
      | .reference _ => [])
  | none => []

/-- The items the second loop of `Converter::convert` pushes: the
functions of each inline path item, in path order. -/
def path_fn_items (spec : OpenAPI) : List Item :=
  spec.paths.paths.flatMap (fun ppr =>
    match ppr.2 with
    | .item path_item => convert_path_item ppr.1 path_item
    | .reference _ => [])

end Parser


/-- Characters that the snake-case walk may emit: never uppercase and
never a raw separator (used to state the idempotence development). -/
def snakeClean (c : Char) : Prop :=
  c.isUpper = false ∧ c ≠ '-' ∧ c ≠ ' '

open Liana OpenapiV3

theorem char_toNat_ofNat_valid (n : Nat) (h : n.isValidChar) :
    (Char.ofNat n).toNat = n := by
  rw [Char.ofNat, dif_pos h]
  rfl

theorem char_eq_iff_toNat {c d : Char} : c = d ↔ c.toNat = d.toNat := by
  constructor
  · intro h
    rw [h]
  · intro h
    exact Char.ext (UInt32.ext h)

theorem char_isUpper_iff (c : Char) :
    c.isUpper = true ↔ 65 ≤ c.toNat ∧ c.toNat ≤ 90 := by
  simp only [Char.isUpper, Bool.and_eq_true, decide_eq_true_eq]
  constructor
  · rintro ⟨h1, h2⟩
    exact ⟨UInt32.le_def.mp h1, UInt32.le_def.mp h2⟩
  · rintro ⟨h1, h2⟩
    exact ⟨UInt32.le_def.mpr h1, UInt32.le_def.mpr h2⟩

theorem char_isLower_iff (c : Char) :
    c.isLower = true ↔ 97 ≤ c.toNat ∧ c.toNat ≤ 122 := by
  simp only [Char.isLower, Bool.and_eq_true, decide_eq_true_eq]
  constructor
  · rintro ⟨h1, h2⟩
    exact ⟨UInt32.le_def.mp h1, UInt32.le_def.mp h2⟩
  · rintro ⟨h1, h2⟩
    exact ⟨UInt32.le_def.mpr h1, UInt32.le_def.mpr h2⟩

theorem char_toNat_toLower_of_upper (c : Char) (h : c.isUpper = true) :
    (c.toLower).toNat = c.toNat + 32 := by
  obtain ⟨h65, h90⟩ := (char_isUpper_iff c).mp h
  unfold Char.toLower
  rw [if_pos ⟨h65, h90⟩]
  exact char_toNat_ofNat_valid _ (Or.inl (by omega))

theorem char_toNat_toUpper_of_lower (c : Char) (h : c.isLower = true) :
    (c.toUpper).toNat = c.toNat - 32 := by
  obtain ⟨h97, h122⟩ := (char_isLower_iff c).mp h
  unfold Char.toUpper
  rw [if_pos ⟨h97, h122⟩]
  exact char_toNat_ofNat_valid _ (Or.inl (by omega))

theorem char_toUpper_of_not_lower (c : Char) (h : c.isLower = false) :
    c.toUpper = c := by
  unfold Char.toUpper
  rw [if_neg]
  intro hc
  rw [(char_isLower_iff c).mpr hc] at h
  simp at h

theorem snakeClean_toLower (c : Char) (h : c.isUpper = true) :
    snakeClean (c.toLower) := by
  obtain ⟨h65, h90⟩ := (char_isUpper_iff c).mp h
  have ht := char_toNat_toLower_of_upper c h
  refine ⟨?_, ?_, ?_⟩
  · by_contra hu
    have hu2 : (c.toLower).isUpper = true := by
      cases hb : (c.toLower).isUpper
      · exact absurd hb hu
      · rfl
    obtain ⟨g1, g2⟩ := (char_isUpper_iff _).mp hu2
    omega
  · intro he
    have hx : (c.toLower).toNat = 45 := by
      rw [he]
      rfl
    omega
  · intro he
    have hx : (c.toLower).toNat = 32 := by
      rw [he]
      rfl
    omega

theorem snakeCore_clean (l : List Char) (b : Bool) :
    ∀ c ∈ RustGen.snakeCore l b, snakeClean c := by
  induction l generalizing b with
  | nil => intro c hc; simp [RustGen.snakeCore] at hc
  | cons x xs ih =>
    intro c hc
    rw [RustGen.snakeCore] at hc
    by_cases hu : x.isUpper
    · rw [if_pos hu] at hc
      rcases List.mem_append.mp hc with h1 | h2
      · by_cases hb : b
        · subst hb
          simp at h1
          rcases h1 with h1 | h1
          · subst h1
            exact ⟨by decide, by decide, by decide⟩
          · subst h1
            exact snakeClean_toLower x hu
        · simp [hb] at h1
          subst h1
          exact snakeClean_toLower x hu
      · exact ih false c h2
    · rw [if_neg hu] at hc
      by_cases hs : x = '-' ∨ x = ' '
      · rw [if_pos hs] at hc
        rcases List.mem_cons.mp hc with h1 | h2
        · subst h1
          exact ⟨by decide, by decide, by decide⟩
        · exact ih false c h2
      · rw [if_neg hs] at hc
        rcases List.mem_cons.mp hc with h1 | h2
        · subst h1
          push_neg at hs
          refine ⟨?_, hs.1, hs.2⟩
          cases hb : c.isUpper
          · rfl
          · exact absurd hb hu
        · exact ih _ c h2

theorem snakeCore_id (l : List Char) (b : Bool)
    (h : ∀ c ∈ l, snakeClean c) : RustGen.snakeCore l b = l := by
  induction l generalizing b with
  | nil => rfl
  | cons x xs ih =>
    obtain ⟨hu, hd, hsp⟩ := h x (List.mem_cons_self x xs)
    rw [RustGen.snakeCore, if_neg (by rw [hu]; exact fun hc => nomatch hc),
      if_neg (by rintro (h1 | h1); exact hd h1; exact hsp h1)]
    rw [ih _ (fun c hc => h c (List.mem_cons_of_mem x hc))]

theorem string_mk_data (t : String) : (⟨t.data⟩ : String) = t := by
  cases t
  rfl

theorem rust_keywords_clean :
    ∀ k ∈ RustGen.rust_keywords, ∀ c ∈ k.data,
      c.isUpper = false ∧ c ≠ '-' ∧ c ≠ ' ' := by
  decide

theorem rust_keywords_no_escape :
    ∀ k ∈ RustGen.rust_keywords,
      RustGen.rust_keywords.contains ("r#" ++ k) = false := by
  decide

theorem mem_of_contains {l : List String} {x : String}
    (h : l.contains x = true) : x ∈ l := by
  simpa using h

theorem to_snake_case_fixed (t : String)
    (hclean : ∀ c ∈ t.data, snakeClean c)
    (hkw : RustGen.rust_keywords.contains t = false) :
    RustGen.to_snake_case t = t := by
  simp only [RustGen.to_snake_case]
  rw [snakeCore_id t.data false hclean, string_mk_data, hkw]
  simp

theorem snake_idem (s : String) :
    RustGen.to_snake_case (RustGen.to_snake_case s) = RustGen.to_snake_case s := by
  by_cases hk : RustGen.rust_keywords.contains
      (⟨RustGen.snakeCore s.data false⟩ : String) = true
  · have h1 : RustGen.to_snake_case s
        = "r#" ++ (⟨RustGen.snakeCore s.data false⟩ : String) := by
      simp only [RustGen.to_snake_case]
      rw [if_pos hk]
    rw [h1]
    apply to_snake_case_fixed
    · intro c hc
      rw [String.data_append] at hc
      rcases List.mem_append.mp hc with h2 | h2
      · have hrl : ("r#" : String).data = ['r', '#'] := rfl
        rw [hrl] at h2
        rcases List.mem_cons.mp h2 with h3 | h3
        · subst h3
          exact ⟨by decide, by decide, by decide⟩
        rcases List.mem_cons.mp h3 with h4 | h4
        · subst h4
          exact ⟨by decide, by decide, by decide⟩
        · exact absurd h4 (List.not_mem_nil c)
      · exact snakeCore_clean _ _ c h2
    · exact rust_keywords_no_escape _ (mem_of_contains hk)
  · have h1 : RustGen.to_snake_case s
        = (⟨RustGen.snakeCore s.data false⟩ : String) := by
      simp only [RustGen.to_snake_case]
      rw [if_neg hk]
    rw [h1]
    apply to_snake_case_fixed
    · intro c hc
      exact snakeCore_clean _ _ c hc
    · simpa using hk

theorem char_toUpper_not_sep (c : Char)
    (h : ¬(c = '_' ∨ c = '-' ∨ c = ' ')) :
    ¬(c.toUpper = '_' ∨ c.toUpper = '-' ∨ c.toUpper = ' ') := by
  by_cases hl : c.isLower = true
  · have ht := char_toNat_toUpper_of_lower c hl
    obtain ⟨h97, h122⟩ := (char_isLower_iff c).mp hl
    rintro (he | he | he)
    · have hx := congrArg Char.toNat he
      rw [ht] at hx
      have h95 : ('_' : Char).toNat = 95 := rfl
      rw [h95] at hx
      omega
    · have hx := congrArg Char.toNat he
      rw [ht] at hx
      have h45 : ('-' : Char).toNat = 45 := rfl
      rw [h45] at hx
      omega
    · have hx := congrArg Char.toNat he
      rw [ht] at hx
      have h32 : (' ' : Char).toNat = 32 := rfl
      rw [h32] at hx
      omega
  · rw [char_toUpper_of_not_lower c (by simpa using hl)]
    exact h

theorem pascalCore_no_sep (l : List Char) (b : Bool) :
    ∀ c ∈ Parser.pascalCore l b, ¬(c = '_' ∨ c = '-' ∨ c = ' ') := by
  induction l generalizing b with
  | nil => intro c hc; simp [Parser.pascalCore] at hc
  | cons x xs ih =>
    intro c hc
    rw [Parser.pascalCore] at hc
    by_cases hs : x = '_' ∨ x = '-' ∨ x = ' '
    · rw [if_pos hs] at hc
      exact ih true c hc
    · rw [if_neg hs] at hc
      by_cases hb : b
      · subst hb
        simp only [if_pos] at hc
        rcases List.mem_cons.mp hc with h1 | h2
        · subst h1
          exact char_toUpper_not_sep x hs
        · exact ih false c h2
      · simp only [hb, if_false, Bool.false_eq_true] at hc
        rcases List.mem_cons.mp hc with h1 | h2
        · subst h1
          exact hs
        · exact ih false c h2

theorem pascalCore_id (l : List Char)
    (h : ∀ c ∈ l, ¬(c = '_' ∨ c = '-' ∨ c = ' ')) :
    Parser.pascalCore l false = l := by
  induction l with
  | nil => rfl
  | cons x xs ih =>
    rw [Parser.pascalCore, if_neg (h x (List.mem_cons_self x xs))]
    simp only [Bool.false_eq_true, if_false]
    rw [ih (fun c hc => h c (List.mem_cons_of_mem x hc))]

theorem char_toUpper_idem (c : Char) : c.toUpper.toUpper = c.toUpper := by
  by_cases hl : c.isLower = true
  · have ht := char_toNat_toUpper_of_lower c hl
    obtain ⟨h97, h122⟩ := (char_isLower_iff c).mp hl
    apply char_toUpper_of_not_lower
    cases hb : (c.toUpper).isLower
    · rfl
    · obtain ⟨g1, g2⟩ := (char_isLower_iff _).mp hb
      omega
  · rw [char_toUpper_of_not_lower c (by simpa using hl)]
    exact char_toUpper_of_not_lower c (by simpa using hl)

theorem pascalCore_idem (l : List Char) :
    Parser.pascalCore (Parser.pascalCore l true) true
      = Parser.pascalCore l true := by
  induction l with
  | nil => rfl
  | cons x xs ih =>
    by_cases hs : x = '_' ∨ x = '-' ∨ x = ' '
    · rw [Parser.pascalCore, if_pos hs]
      exact ih
    · conv_rhs => rw [Parser.pascalCore]
      rw [if_neg hs]
      simp only [if_pos]
      conv_lhs => rw [Parser.pascalCore, if_neg hs]
      simp only [if_pos]
      rw [Parser.pascalCore, if_neg (char_toUpper_not_sep x hs)]
      simp only [if_pos]
      rw [char_toUpper_idem,
        pascalCore_id _ (pascalCore_no_sep xs false)]

theorem pascal_idem (s : String) :
    RustGen.to_pascal_case (RustGen.to_pascal_case s)
      = RustGen.to_pascal_case s := by
  simp only [RustGen.to_pascal_case]
  exact congrArg String.mk (pascalCore_idem s.data)

open Liana OpenapiV3 in
theorem convert_schema_type_object (props : List (String × ReferenceOr Schema))
    (req : List String) :
    Parser.convert_schema_type (.object (.mk props req)) =
      (TypeKind.struct (props.map (fun p =>
        Liana.Field.mk (some p.1)
          (if req.contains p.1 then Parser.resolve_boxed_schema_ref p.2
           else Ty.generic "Option" [Parser.resolve_boxed_schema_ref p.2]) [])),
       []) := by
  rw [Parser.convert_schema_type]
  rw [List.attach_map_val props (fun p =>
    Liana.Field.mk (some p.1)
      (if req.contains p.1 then Parser.resolve_boxed_schema_ref p.2
       else Ty.generic "Option" [Parser.resolve_boxed_schema_ref p.2]) [])]

open Liana OpenapiV3

theorem convert_schema_any_struct (d : SchemaData) (props : List (String × ReferenceOr Schema))
    (req : List String) (nm : Option String) (h : props ≠ []) :
    Parser.convert_schema (.mk d (.any (.mk props req))) nm =
      Ty.mk (TypeKind.struct (props.map (fun p =>
        Liana.Field.mk (some p.1)
          (if req.contains p.1 then Parser.resolve_boxed_schema_ref p.2
           else Ty.generic "Option" [Parser.resolve_boxed_schema_ref p.2]) [])))
        nm [] [] [] (Metadata.mk d.description none none []) := by
  rw [Parser.convert_schema]
  have he : props.isEmpty = false := by
    cases props
    · exact absurd rfl h
    · rfl
  rw [he]
  simp only [Bool.false_eq_true, if_false]
  rw [List.attach_map_val props (fun p =>
    Liana.Field.mk (some p.1)
      (if req.contains p.1 then Parser.resolve_boxed_schema_ref p.2
       else Ty.generic "Option" [Parser.resolve_boxed_schema_ref p.2]) [])]

theorem convert_schema_name (schema : Schema) (nm : Option String) :
    (Parser.convert_schema schema nm).name = nm := by
  cases schema with
  | mk d k =>
    rw [Parser.convert_schema.eq_def]
    simp [Ty.name]

theorem convert_schema_type_string_enum (fmt : VariantOrUnknownOrEmpty StringFormat)
    (enumr : List (Option String)) (h : enumr ≠ []) :
    Parser.convert_schema_type (.string (.mk fmt enumr)) =
      (TypeKind.enum ((enumr.filterMap id).map (fun v =>
        Variant.mk (Parser.to_pascal_case v) []
          [ Annotation.with_string "serde_rename" v])), []) := by
  rw [Parser.convert_schema_type]
  have he : enumr.isEmpty = false := by
    cases enumr
    · exact absurd rfl h
    · rfl
  rw [he]
  simp

theorem resolve_schema_ref_reference (r : String) :
    Parser.resolve_schema_ref (.reference r)
      = Ty.reference (Parser.schema_ref_target r) := by
  rw [Parser.resolve_schema_ref]

theorem resolve_boxed_schema_ref_reference (r : String) :
    Parser.resolve_boxed_schema_ref (.reference r)
      = Ty.reference (Parser.schema_ref_target r) := by
  rw [Parser.resolve_boxed_schema_ref]

theorem convert_schema_type_array_some (r : ReferenceOr Schema) :
    Parser.convert_schema_type (.array (.mk (some r))) =
      (TypeKind.ref "Vec", [Parser.resolve_boxed_schema_ref r]) := by
  rw [Parser.convert_schema_type]

theorem foldl_append_flatMap {α β : Type} (g : α → List β) :
    ∀ (l : List α) (acc : List β),
      l.foldl (fun a x => a ++ g x) acc = acc ++ l.flatMap g := by
  intro l
  induction l with
  | nil => intro acc; simp
  | cons x xs ih =>
    intro acc
    simp only [List.foldl_cons, List.flatMap_cons, ih, List.append_assoc]

theorem convert_path_item_foldl (path : String) :
    ∀ (l : List (String × Option Operation)) (acc : List Item),
      l.foldl (fun items mo =>
        match mo.2 with
        | some operation =>
          items ++ [Item.function (Parser.convert_operation path mo.1 operation)]
        | none => items) acc
      = acc ++ l.filterMap (fun mo =>
          mo.2.map (fun op => Item.function (Parser.convert_operation path mo.1 op))) := by
  intro l
  induction l with
  | nil => intro acc; simp
  | cons x xs ih =>
    intro acc
    cases hx : x.2 with
    | none => simp [hx, ih]
    | some op => simp [hx, ih]

theorem convert_path_item_eq (path : String) (item : PathItem) :
    Parser.convert_path_item path item
      = (Parser.operations_table item).filterMap (fun mo =>
          mo.2.map (fun op => Item.function (Parser.convert_operation path mo.1 op))) := by
  rw [Parser.convert_path_item, convert_path_item_foldl]
  rfl

theorem convert_schemas_foldl :
    ∀ (l : List (String × ReferenceOr Schema)) (acc : List Item),
      l.foldl (fun items nsr =>
        match nsr.2 with
        | .item schema => items ++ [Item.type (Parser.convert_schema schema (some nsr.1))]
        | .reference _ => items) acc
      = acc ++ l.flatMap (fun nsr =>
          match nsr.2 with
          | .item schema => [Item.type (Parser.convert_schema schema (some nsr.1))]
          | .reference _ => []) := by
  intro l
  induction l with
  | nil => intro acc; simp
  | cons x xs ih =>
    intro acc
    cases hx : x.2 with
    | reference r => simp [hx, ih]
    | item s => simp [hx, ih]

theorem convert_paths_foldl :
    ∀ (l : List (String × ReferenceOr PathItem)) (acc : List Item),
      l.foldl (fun items ppr =>
        match ppr.2 with
        | .item path_item => items ++ Parser.convert_path_item ppr.1 path_item
        | .reference _ => items) acc
      = acc ++ l.flatMap (fun ppr =>
          match ppr.2 with
          | .item path_item => Parser.convert_path_item ppr.1 path_item
          | .reference _ => []) := by
  intro l
  induction l with
  | nil => intro acc; simp
  | cons x xs ih =>
    intro acc
    cases hx : x.2 with
    | reference r => simp [hx, ih]
    | item s => simp [hx, ih]

theorem convert_items_eq (spec : OpenAPI) :
    (Parser.convert spec).items
      = Parser.schema_items spec ++ Parser.path_fn_items spec := by
  rw [Parser.convert]
  cases hc : spec.components with
  | none =>
    simp only [Liana.Module.items]
    rw [convert_paths_foldl]
    rw [Parser.schema_items, Parser.path_fn_items, hc]
    try simp
  | some components =>
    simp only [Liana.Module.items]
    rw [convert_paths_foldl, convert_schemas_foldl]
    rw [Parser.schema_items, Parser.path_fn_items, hc]
    try simp

theorem convert_operation_ret (path method : String) (op : Operation) :
    (Parser.convert_operation path method op).ret
      = Ty.generic "Result"
          [Parser.response_return_type op, Ty.reference "ApiError"] := by
  rw [Parser.convert_operation]

theorem convert_operation_annotations (path method : String) (op : Operation) :
    (Parser.convert_operation path method op).annotations
      = [ Annotation.with_string "http_method" method.toUpper,
         Annotation.with_string "http_path" path] := by
  rw [Parser.convert_operation]

theorem response_return_type_none (op : Operation)
    (hdef : op.responses.default = none)
    (h200 : op.responses.responses.lookup (StatusCode.code 200) = none) :
    Parser.response_return_type op = Ty.reference "Unit" := by
  rw [Parser.response_return_type, hdef, h200]
  rfl

theorem response_return_type_default_json (op : Operation)
    (resp : Response) (sr : ReferenceOr Schema)
    (hdef : op.responses.default = some (.item resp))
    (hjson : resp.content.lookup "application/json" = some ⟨some sr⟩) :
    Parser.response_return_type op = Parser.resolve_schema_ref sr := by
  rw [Parser.response_return_type, hdef]
  simp [Option.orElse, hjson]

theorem response_return_type_200_json (op : Operation)
    (resp : Response) (sr : ReferenceOr Schema)
    (hdef : op.responses.default = none)
    (h200 : op.responses.responses.lookup (StatusCode.code 200) = some (.item resp))
    (hjson : resp.content.lookup "application/json" = some ⟨some sr⟩) :
    Parser.response_return_type op = Parser.resolve_schema_ref sr := by
  rw [Parser.response_return_type, hdef, h200]
  simp [Option.orElse, hjson]

/-- C1: for every object schema (including a schema with properties but
no declared type), conversion produces a `TypeKind::Struct` whose fields
correspond one-to-one and in order to the properties: a property in the
required-name set keeps its resolved type unchanged, a property absent
from it is wrapped in `Ref{"Option"}` with the resolved type as sole
argument. -/
theorem c1_object_required_optional
    (obj : ObjectType) (d : SchemaData) (a : AnySchema) (nm : Option String) :
    (∃ fields, Parser.convert_schema_type (.object obj)
        = (TypeKind.struct fields, []) ∧
      List.Forall₂ (fun (p : String × ReferenceOr Schema) (f : Liana.Field) =>
        f.name = some p.1 ∧
        (obj.required.contains p.1 = true →
          f.typ = Parser.resolve_boxed_schema_ref p.2) ∧
        (obj.required.contains p.1 = false →
          f.typ = Ty.generic "Option" [Parser.resolve_boxed_schema_ref p.2]) ∧
        f.annotations = []) obj.properties fields) ∧
    (a.properties ≠ [] →
      ∃ fields, Parser.convert_schema (.mk d (.any a)) nm
          = Ty.mk (TypeKind.struct fields) nm [] [] []
              (Metadata.mk d.description none none []) ∧
        List.Forall₂ (fun (p : String × ReferenceOr Schema) (f : Liana.Field) =>
          f.name = some p.1 ∧
          (a.required.contains p.1 = true →
            f.typ = Parser.resolve_boxed_schema_ref p.2) ∧
          (a.required.contains p.1 = false →
            f.typ = Ty.generic "Option" [Parser.resolve_boxed_schema_ref p.2]) ∧
          f.annotations = []) a.properties fields) := by
  constructor
  · obtain ⟨props, req⟩ := obj
    refine ⟨_, convert_schema_type_object props req, ?_⟩
    simp only [ObjectType.properties, ObjectType.required]
    rw [List.forall₂_map_right_iff]
    rw [List.forall₂_same]
    intro p hp
    refine ⟨rfl, ?_, ?_, rfl⟩
    · intro hreq
      simp only [Liana.Field.typ]
      rw [if_pos hreq]
    · intro hreq
      simp only [Liana.Field.typ]
      rw [if_neg (by rw [hreq]; simp)]
  · intro hne
    obtain ⟨props, req⟩ := a
    simp only [AnySchema.properties] at hne
    refine ⟨_, convert_schema_any_struct d props req nm hne, ?_⟩
    simp only [AnySchema.properties, AnySchema.required]
    rw [List.forall₂_map_right_iff]
    rw [List.forall₂_same]
    intro p hp
    refine ⟨rfl, ?_, ?_, rfl⟩
    · intro hreq
      simp only [Liana.Field.typ]
      rw [if_pos hreq]
    · intro hreq
      simp only [Liana.Field.typ]
      rw [if_neg (by rw [hreq]; simp)]

/-- C2 counterexample: a foreign (unresolvable) `$ref` such as
`#/definitions/Pet` does NOT yield `Ref{"Any"}`; it yields a `Ref` whose
name is the full reference string unchanged. -/
theorem c2_foreign_ref_counterexample :
    Parser.resolve_schema_ref (.reference "#/definitions/Pet")
        = Ty.reference "#/definitions/Pet" ∧
    Parser.resolve_schema_ref (.reference "#/definitions/Pet")
        ≠ Ty.reference "Any" := by
  have ht : Parser.schema_ref_target "#/definitions/Pet" = "#/definitions/Pet" := by
    decide
  constructor
  · rw [resolve_schema_ref_reference, ht]
  · rw [resolve_schema_ref_reference, ht]
    intro h
    simp only [Ty.reference, Ty.mk.injEq, TypeKind.ref.injEq] at h
    exact absurd h.1 (by decide)

/-- C2 amended: for every `$ref`-style reference, conversion does not
abort — resolution is total and always yields a nominal `Ref`; a
reference starting with the component-schema prefix
`#/components/schemas/` is named by the text after the prefix, and any
other (foreign/unresolvable) reference is named by the full reference
string unchanged (not `Ref{"Any"}`); the surrounding structure (here, an
array schema around the reference) is otherwise intact. -/
theorem c2_ref_resolution (r : String) :
    Parser.resolve_schema_ref (.reference r)
        = Ty.reference (Parser.schema_ref_target r) ∧
    Parser.resolve_boxed_schema_ref (.reference r)
        = Ty.reference (Parser.schema_ref_target r) ∧
    (r.data.take 21 = "#/components/schemas/".data →
      Parser.schema_ref_target r = ⟨r.data.drop 21⟩) ∧
    (r.data.take 21 ≠ "#/components/schemas/".data →
      Parser.schema_ref_target r = r) ∧
    Parser.convert_schema_type (.array (.mk (some (.reference r))))
      = (TypeKind.ref "Vec", [Ty.reference (Parser.schema_ref_target r)]) := by
  refine ⟨resolve_schema_ref_reference r, resolve_boxed_schema_ref_reference r,
    ?_, ?_, ?_⟩
  · intro h
    rw [Parser.schema_ref_target, if_pos h]
  · intro h
    rw [Parser.schema_ref_target, if_neg h]
  · rw [convert_schema_type_array_some, resolve_boxed_schema_ref_reference]

/-- C3: a string schema whose enumeration carries N ≥ 1 literal values
converts to a `TypeKind::Enum` with exactly N unit variants, in order;
each variant is named by the Pascal-cased literal and carries a
`serde_rename` annotation holding the original literal exactly. -/
theorem c3_string_enum_variants (s : StringType)
    (h : s.enumeration.filterMap id ≠ []) :
    Parser.convert_schema_type (.string s)
      = (TypeKind.enum ((s.enumeration.filterMap id).map (fun v =>
          Variant.mk (Parser.to_pascal_case v) []
            [ Annotation.with_string "serde_rename" v])), []) ∧
    ((s.enumeration.filterMap id).map (fun v =>
        Variant.mk (Parser.to_pascal_case v) []
          [ Annotation.with_string "serde_rename" v])).length
      = (s.enumeration.filterMap id).length := by
  obtain ⟨fmt, enumr⟩ := s
  simp only [StringType.enumeration] at h ⊢
  have hne : enumr ≠ [] := by
    intro he
    rw [he] at h
    exact h rfl
  exact ⟨convert_schema_type_string_enum fmt enumr hne, List.length_map _ _⟩

/-- C4: every operation's return type is `Ref{"Result"}` with exactly
two arguments — the response type resolved from the default response if
present, else the 200 response, JSON content only, falling back to
`Ref{"Unit"}` — and the fixed error reference `Ref{"ApiError"}`. -/
theorem c4_result_return_type (path method : String) (op : Operation) :
    (Parser.convert_operation path method op).ret
      = Ty.generic "Result"
          [Parser.response_return_type op, Ty.reference "ApiError"] ∧
    (op.responses.default = none →
      op.responses.responses.lookup (StatusCode.code 200) = none →
      Parser.response_return_type op = Ty.reference "Unit") ∧
    (∀ (resp : Response) (sr : ReferenceOr Schema),
      op.responses.default = some (.item resp) →
      resp.content.lookup "application/json" = some ⟨some sr⟩ →
      Parser.response_return_type op = Parser.resolve_schema_ref sr) ∧
    (∀ (resp : Response) (sr : ReferenceOr Schema),
      op.responses.default = none →
      op.responses.responses.lookup (StatusCode.code 200) = some (.item resp) →
      resp.content.lookup "application/json" = some ⟨some sr⟩ →
      Parser.response_return_type op = Parser.resolve_schema_ref sr) := by
  refine ⟨convert_operation_ret path method op, ?_, ?_, ?_⟩
  · exact response_return_type_none op
  · intro resp sr hdef hjson
    exact response_return_type_default_json op resp sr hdef hjson
  · intro resp sr hdef h200 hjson
    exact response_return_type_200_json op resp sr hdef h200 hjson

theorem length_filterMap_map_snd {α β γ : Type}
    (g : α × Option β → β → γ) :
    ∀ l : List (α × Option β),
      (l.filterMap (fun mo => mo.2.map (g mo))).length
        = (l.filterMap Prod.snd).length := by
  intro l
  induction l with
  | nil => rfl
  | cons x xs ih =>
    cases hx : x.2 with
    | none => simp [List.filterMap_cons, hx, ih]
    | some b => simp [List.filterMap_cons, hx, ih]

/-- C5: a path item defining operations on M of the eight recognized
HTTP methods converts to exactly M `Function` items, in the fixed method
order; each carries an `http_method` annotation holding the uppercased
method name and an `http_path` annotation holding the original path
string unchanged. -/
theorem c5_path_item_functions (path : String) (item : PathItem) :
    Parser.convert_path_item path item
      = (Parser.operations_table item).filterMap (fun mo =>
          mo.2.map (fun op =>
            Item.function (Parser.convert_operation path mo.1 op))) ∧
    (Parser.convert_path_item path item).length
      = ((Parser.operations_table item).filterMap Prod.snd).length ∧
    ∀ it ∈ Parser.convert_path_item path item, ∃ m op,
      (m, some op) ∈ Parser.operations_table item ∧
      it = Item.function (Parser.convert_operation path m op) ∧
      (Parser.convert_operation path m op).annotations
        = [ Annotation.with_string "http_method" m.toUpper,
           Annotation.with_string "http_path" path] := by
  refine ⟨convert_path_item_eq path item, ?_, ?_⟩
  · rw [convert_path_item_eq path item]
    exact length_filterMap_map_snd _ _
  · intro it hit
    rw [convert_path_item_eq path item] at hit
    obtain ⟨mo, hmem, hsome⟩ := List.mem_filterMap.mp hit
    obtain ⟨m, o⟩ := mo
    cases o with
    | none => simp at hsome
    | some op =>
      refine ⟨m, op, hmem, ?_, convert_operation_annotations path m op⟩
      simp only [Option.map_some', Option.some.injEq] at hsome
      exact hsome.symm

/-- C6: both naming normalization transforms of the generator are
idempotent — for every string `s`, `to_snake_case (to_snake_case s) =
to_snake_case s` and `to_pascal_case (to_pascal_case s) =
to_pascal_case s`. -/
theorem c6_naming_idempotent (s : String) :
    RustGen.to_snake_case (RustGen.to_snake_case s)
        = RustGen.to_snake_case s ∧
    RustGen.to_pascal_case (RustGen.to_pascal_case s)
        = RustGen.to_pascal_case s :=
  ⟨snake_idem s, pascal_idem s⟩

theorem generate_lines_eq (module : Liana.Module) :
    RustGen.generate_lines module
      = RustGen.module_header_lines module
          ++ module.items.flatMap RustGen.item_lines := by
  rw [RustGen.generate_lines, foldl_append_flatMap]

theorem generate_struct_ne_nil (name : String) (params : List TypeParam)
    (fields : List Liana.Field) :
    RustGen.generate_struct name params fields ≠ [] := by
  rw [RustGen.generate_struct]
  simp

theorem generate_enum_ne_nil (name : String) (params : List TypeParam)
    (variants : List Variant) :
    RustGen.generate_enum name params variants ≠ [] := by
  rw [RustGen.generate_enum]
  simp

theorem generate_type_ne_nil (typ : Ty) (n : String)
    (h : typ.name = some n) : RustGen.generate_type typ ≠ [] := by
  rw [RustGen.generate_type.eq_def, h]
  cases hk : typ.kind with
  | struct fields =>
    intro hc
    rcases List.append_eq_nil.mp hc with ⟨h1, h2⟩
    exact generate_struct_ne_nil _ _ _ h2
  | enum variants =>
    intro hc
    rcases List.append_eq_nil.mp hc with ⟨h1, h2⟩
    exact generate_enum_ne_nil _ _ _ h2
  | ref target =>
    intro hc
    rcases List.append_eq_nil.mp hc with ⟨h1, h2⟩
    exact absurd h2 (by simp)
  | function fparams ret =>
    intro hc
    rcases List.append_eq_nil.mp hc with ⟨h1, h2⟩
    exact absurd h2 (by simp)
  | union members =>
    intro hc
    rcases List.append_eq_nil.mp hc with ⟨h1, h2⟩
    simp at h2
  | intersection members =>
    intro hc
    rcases List.append_eq_nil.mp hc with ⟨h1, h2⟩
    simp at h2

theorem generate_function_ne_nil (func : Liana.Function) :
    RustGen.generate_function func ≠ [] := by
  rw [RustGen.generate_function]
  intro hc
  rcases List.append_eq_nil.mp hc with ⟨h1, h2⟩
  simp at h2

theorem generate_struct_named_eq (name : String) (params : List TypeParam)
    (fields : List Liana.Field) (hne : fields ≠ [])
    (hnamed : fields.all (fun f => f.name.isNone) = false) :
    RustGen.generate_struct name params fields
      = [RustGen.derive_line,
         "pub struct " ++ name ++ RustGen.generics_str params ++ " \x7b"] ++
        fields.flatMap RustGen.named_field_lines ++ ["\x7d", ""] := by
  rw [RustGen.generate_struct]
  have he : fields.isEmpty = false := by
    cases fields
    · exact absurd rfl hne
    · rfl
  rw [he, hnamed]
  simp only [Bool.false_eq_true, if_false]
  rw [foldl_append_flatMap]
  simp

theorem generate_struct_tuple_eq (name : String) (params : List TypeParam)
    (fields : List Liana.Field) (hne : fields ≠ [])
    (hunnamed : fields.all (fun f => f.name.isNone) = true) :
    RustGen.generate_struct name params fields
      = [RustGen.derive_line,
         "pub struct " ++ name ++ RustGen.generics_str params ++ "("] ++
        fields.flatMap (fun field =>
          ["    pub " ++ RustGen.type_to_rust field.typ ++ ","]) ++
        [");", ""] := by
  rw [RustGen.generate_struct]
  have he : fields.isEmpty = false := by
    cases fields
    · exact absurd rfl hne
    · rfl
  rw [he, hunnamed]
  simp only [Bool.false_eq_true, if_false, if_true]
  rw [foldl_append_flatMap]
  simp

theorem item_lines_convert_ne_nil (spec : OpenAPI) :
    ∀ it ∈ (Parser.convert spec).items, RustGen.item_lines it ≠ [] := by
  intro it hit
  rw [convert_items_eq] at hit
  rcases List.mem_append.mp hit with hmem | hmem
  · rw [Parser.schema_items] at hmem
    cases hc : spec.components with
    | none =>
      rw [hc] at hmem
      exact absurd hmem (List.not_mem_nil it)
    | some components =>
      rw [hc] at hmem
      obtain ⟨nsr, hn, hin⟩ := List.mem_flatMap.mp hmem
      cases hx : nsr.2 with
      | reference r =>
        rw [hx] at hin
        exact absurd hin (List.not_mem_nil it)
      | item s =>
        rw [hx] at hin
        rcases List.mem_singleton.mp hin with rfl
        rw [RustGen.item_lines]
        exact generate_type_ne_nil _ nsr.1 (convert_schema_name s (some nsr.1))
  · rw [Parser.path_fn_items] at hmem
    obtain ⟨ppr, hp, hin⟩ := List.mem_flatMap.mp hmem
    cases hx : ppr.2 with
    | reference r =>
      rw [hx] at hin
      exact absurd hin (List.not_mem_nil it)
    | item path_item =>
      rw [hx] at hin
      replace hin : it ∈ Parser.convert_path_item ppr.1 path_item := hin
      rw [convert_path_item_eq] at hin
      obtain ⟨mo, hmo, hsome⟩ := List.mem_filterMap.mp hin
      cases ho : mo.2 with
      | none =>
        rw [ho] at hsome
        simp at hsome
      | some op =>
        rw [ho] at hsome
        simp only [Option.map_some', Option.some.injEq] at hsome
        rw [← hsome, RustGen.item_lines]
        exact generate_function_ne_nil _

/-- C7: order is preserved end-to-end.  The generator emits the header
followed by each item's declaration lines in the items list's original
order; the converter's item list is the schema definitions in map order
followed by the path functions in path order; every converter-produced
item yields a (nonempty) declaration; and `generate_struct` emits the
field declarations in the `Field` list's order (named and tuple
shapes). -/
theorem c7_order_preserved (module : Liana.Module) (spec : OpenAPI)
    (name : String) (params : List TypeParam) (fields : List Liana.Field) :
    RustGen.generate_lines module
      = RustGen.module_header_lines module
          ++ module.items.flatMap RustGen.item_lines ∧
    (Parser.convert spec).items
      = Parser.schema_items spec ++ Parser.path_fn_items spec ∧
    (∀ it ∈ (Parser.convert spec).items, RustGen.item_lines it ≠ []) ∧
    (fields ≠ [] → fields.all (fun f => f.name.isNone) = false →
      RustGen.generate_struct name params fields
        = [RustGen.derive_line,
           "pub struct " ++ name ++ RustGen.generics_str params ++ " \x7b"] ++
          fields.flatMap RustGen.named_field_lines ++ ["\x7d", ""]) ∧
    (fields ≠ [] → fields.all (fun f => f.name.isNone) = true →
      RustGen.generate_struct name params fields
        = [RustGen.derive_line,
           "pub struct " ++ name ++ RustGen.generics_str params ++ "("] ++
          fields.flatMap (fun field =>
            ["    pub " ++ RustGen.type_to_rust field.typ ++ ","]) ++
          [");", ""]) :=
  ⟨generate_lines_eq module, convert_items_eq spec, item_lines_convert_ne_nil spec,
   generate_struct_named_eq name params fields,
   generate_struct_tuple_eq name params fields⟩

/-- C8: in the named-struct emission, a field whose snake-cased name
differs from the original carries a serde rename directive holding the
original name exactly; a field whose name is unchanged carries none. -/
theorem c8_field_rename (field : Liana.Field) (n : String)
    (h : field.name = some n) :
    (RustGen.to_snake_case n ≠ n →
      RustGen.named_field_lines field
        = ["    #[serde(rename = \"" ++ n ++ "\")]",
           "    pub " ++ RustGen.to_snake_case n ++ ": " ++
             RustGen.type_to_rust field.typ ++ ","]) ∧
    (RustGen.to_snake_case n = n →
      RustGen.named_field_lines field
        = ["    pub " ++ n ++ ": " ++ RustGen.type_to_rust field.typ ++ ","]) := by
  constructor
  · intro hne
    rw [RustGen.named_field_lines, h]
    simp only [Option.getD_some]
    rw [if_pos hne]
    rfl
  · intro heq
    rw [RustGen.named_field_lines, h]
    simp only [Option.getD_some]
    rw [heq, if_neg (by simp)]
    rfl

/-- C9: in a type position, a `Union` or `Intersection` renders as its
first member's rendering alone (`serde_json::Value` when empty); the
remaining members do not influence the rendered text. -/
theorem c9_union_first_member (name : Option String)
    (params : List TypeParam) (args : List Ty) (anns : List Annotation)
    (md : Metadata) (m : Ty) (rest1 rest2 : List Ty) :
    RustGen.type_to_rust (Ty.mk (.union []) name params args anns md)
        = "serde_json::Value" ∧
    RustGen.type_to_rust (Ty.mk (.intersection []) name params args anns md)
        = "serde_json::Value" ∧
    RustGen.type_to_rust (Ty.mk (.union (m :: rest1)) name params args anns md)
        = RustGen.type_to_rust m ∧
    RustGen.type_to_rust (Ty.mk (.intersection (m :: rest1)) name params args anns md)
        = RustGen.type_to_rust m ∧
    RustGen.type_to_rust (Ty.mk (.union (m :: rest1)) name params args anns md)
        = RustGen.type_to_rust (Ty.mk (.union (m :: rest2)) name params args anns md) := by
  refine ⟨?_, ?_, ?_, ?_, ?_⟩ <;> rw [RustGen.type_to_rust]
  · rw [RustGen.type_to_rust]

theorem length_filterMap_id_lt {α : Type} :
    ∀ l : List (Option α), none ∈ l → (l.filterMap id).length < l.length := by
  intro l
  induction l with
  | nil => intro h; exact absurd h (List.not_mem_nil none)
  | cons x xs ih =>
    intro h
    cases x with
    | none =>
      have := List.length_filterMap_le (id : Option α → Option α) xs
      simp [List.filterMap_cons]
      calc (xs.filterMap id).length ≤ xs.length := List.length_filterMap_le id xs
        _ < xs.length + 1 := Nat.lt_succ_self _
    | some a =>
      have hx : none ∈ xs := by
        rcases List.mem_cons.mp h with h1 | h1
        · exact absurd h1.symm (by simp)
        · exact h1
      simp only [List.filterMap_cons, id, List.length_cons, List.length]
      exact Nat.succ_lt_succ (ih hx)

/-- C10: a string-enum schema whose enumeration contains null entries
drops them entirely: the resulting enum has one variant per non-null
literal, in the original order, with strictly fewer variants than
enumeration entries and no placeholder for any null. -/
theorem c10_null_enum_entries_dropped (s : StringType)
    (h : none ∈ s.enumeration) :
    Parser.convert_schema_type (.string s)
      = (TypeKind.enum ((s.enumeration.filterMap id).map (fun v =>
          Variant.mk (Parser.to_pascal_case v) []
            [ Annotation.with_string "serde_rename" v])), []) ∧
    ((s.enumeration.filterMap id).map (fun v =>
        Variant.mk (Parser.to_pascal_case v) []
          [ Annotation.with_string "serde_rename" v])).length
      < s.enumeration.length := by
  obtain ⟨fmt, enumr⟩ := s
  simp only [StringType.enumeration] at h ⊢
  have hne : enumr ≠ [] := by
    intro he
    rw [he] at h
    exact absurd h (List.not_mem_nil none)
  refine ⟨convert_schema_type_string_enum fmt enumr hne, ?_⟩
  rw [List.length_map]
  exact length_filterMap_id_lt enumr h

/-- Witness for C1 at a concrete implicit-object schema with one
non-required property. -/
theorem c1_witness :
    ∃ fields,
      Parser.convert_schema
          (.mk (.mk none)
            (.any (.mk [("petName", .reference "#/components/schemas/Pet")] [])))
          none
        = Ty.mk (TypeKind.struct fields) none [] [] []
            (Metadata.mk none none none []) ∧
      List.Forall₂ (fun (p : String × ReferenceOr Schema) (f : Liana.Field) =>
        f.name = some p.1 ∧
        (([] : List String).contains p.1 = true →
          f.typ = Parser.resolve_boxed_schema_ref p.2) ∧
        (([] : List String).contains p.1 = false →
          f.typ = Ty.generic "Option" [Parser.resolve_boxed_schema_ref p.2]) ∧
        f.annotations = [])
        [("petName", .reference "#/components/schemas/Pet")] fields :=
  (c1_object_required_optional (.mk [] []) (.mk none)
    (.mk [("petName", .reference "#/components/schemas/Pet")] []) none).2
    (List.cons_ne_nil _ _)

/-- Witness for C2 (amended) at a component-schema reference and at a
foreign reference. -/
theorem c2_witness :
    Parser.schema_ref_target "#/components/schemas/Pet"
        = ⟨("#/components/schemas/Pet").data.drop 21⟩ ∧
    Parser.schema_ref_target "#/definitions/Pet" = "#/definitions/Pet" :=
  ⟨(c2_ref_resolution "#/components/schemas/Pet").2.2.1 (by decide),
   (c2_ref_resolution "#/definitions/Pet").2.2.2.1 (by decide)⟩

/-- Witness for C3 at a one-literal string enumeration. -/
theorem c3_witness :
    Parser.convert_schema_type (.string (.mk .empty [some "foo-bar"]))
      = (TypeKind.enum ((([some "foo-bar"] : List (Option String)).filterMap id).map
          (fun v => Variant.mk (Parser.to_pascal_case v) []
            [ Annotation.with_string "serde_rename" v])), []) :=
  (c3_string_enum_variants (.mk .empty [some "foo-bar"]) (by decide)).1

/-- Witness for C4 at an operation with no responses at all. -/
theorem c4_witness :
    Parser.response_return_type ⟨none, [], none, ⟨none, []⟩, none, none⟩
      = Ty.reference "Unit" :=
  (c4_result_return_type "/pets" "get"
    ⟨none, [], none, ⟨none, []⟩, none, none⟩).2.1 rfl rfl

/-- Witness for C5 at a path item with a single `get` operation. -/
theorem c5_witness :
    ∃ m op,
      (m, some op) ∈ Parser.operations_table
          ⟨some ⟨none, [], none, ⟨none, []⟩, none, none⟩,
           none, none, none, none, none, none, none⟩ ∧
      Item.function (Parser.convert_operation "/pets" "get"
          ⟨none, [], none, ⟨none, []⟩, none, none⟩)
        = Item.function (Parser.convert_operation "/pets" m op) ∧
      (Parser.convert_operation "/pets" m op).annotations
        = [ Annotation.with_string "http_method" m.toUpper,
           Annotation.with_string "http_path" "/pets"] :=
  (c5_path_item_functions "/pets"
    ⟨some ⟨none, [], none, ⟨none, []⟩, none, none⟩,
     none, none, none, none, none, none, none⟩).2.2
    (Item.function (Parser.convert_operation "/pets" "get"
      ⟨none, [], none, ⟨none, []⟩, none, none⟩))
    (List.Mem.head _)

/-- Witness for C7 at a concrete one-field named struct. -/
theorem c7_witness :
    RustGen.generate_struct "Pet" []
        [Liana.Field.mk (some "petName") (Ty.reference "String") []]
      = [RustGen.derive_line,
         "pub struct " ++ "Pet" ++ RustGen.generics_str [] ++ " \x7b"] ++
        [Liana.Field.mk (some "petName") (Ty.reference "String") []].flatMap
          RustGen.named_field_lines ++ ["\x7d", ""] :=
  (c7_order_preserved (Liana.Module.mk "m" [] [] [] Liana.Metadata.default)
    ⟨⟨"t", none⟩, ⟨[]⟩, none⟩ "Pet" []
    [Liana.Field.mk (some "petName") (Ty.reference "String") []]).2.2.2.1
    (List.cons_ne_nil _ _) (by decide)

/-- Witness for C8 at a camelCase field name that gets re-cased. -/
theorem c8_witness :
    RustGen.named_field_lines
        (Liana.Field.mk (some "petName") (Ty.reference "String") [])
      = ["    #[serde(rename = \"" ++ "petName" ++ "\")]",
         "    pub " ++ RustGen.to_snake_case "petName" ++ ": " ++
           RustGen.type_to_rust (Ty.reference "String") ++ ","] :=
  (c8_field_rename (Liana.Field.mk (some "petName") (Ty.reference "String") [])
    "petName" rfl).1 (by decide)

/-- Witness for C10 at an enumeration containing a null entry. -/
theorem c10_witness :
    Parser.convert_schema_type (.string (.mk .empty [none, some "a"]))
      = (TypeKind.enum ((([none, some "a"] : List (Option String)).filterMap id).map
          (fun v => Variant.mk (Parser.to_pascal_case v) []
            [ Annotation.with_string "serde_rename" v])), []) :=
  (c10_null_enum_entries_dropped (.mk .empty [none, some "a"]) (by decide)).1
